import Mathlib

/-!
Verification of the payments engine (Rust repository mbkrafft/payments_engine).

This file is a shallow embedding of the repository:
- src/domain/money.rs      (Money: scaled-i64 fixed point, parsing, display)
- src/domain/account.rs    (Account)
- src/domain/transaction.rs (Transaction, TransactionKind)
- src/engine.rs            (Engine: deposit / withraw / dispute / resolve / chargeback)
- src/output_repository.rs (StdOutOutput: account map + ledger)

Machine integers are modelled as Int with explicit range checks where the
source checks ranges (i64 / i128 bounds in money.rs).  The engine manipulates
rust_decimal Decimal amounts with exact +, -, < semantics; these are modelled
as exact rationals.  HashMaps are modelled as total functions (getting an
absent account yields the freshly created zeroed account, exactly as the
source's get_or_create_account inserts Account::new on first access).
-/

namespace Payments

set_option maxRecDepth 8192

/-! ## Accounts (src/domain/account.rs) -/

/-- Account state: available / held / total funds and the locked flag,
as in src/domain/account.rs. -/
structure Account where
  available : ℚ
  held : ℚ
  total : ℚ
  locked : Bool
deriving DecidableEq

/-- Account::new -/
def Account.new : Account := ⟨0, 0, 0, false⟩

/-- Account::sync_total -/
def Account.sync_total (a : Account) : Account :=
  { a with total := a.available + a.held }

/-! ## Transactions (src/domain/transaction.rs) -/

/-- TransactionKind: Deposit and Withdrawal carry an amount; Dispute,
Resolve and Chargeback reference a prior transaction id. -/
inductive TransactionKind where
  | deposit (amount : ℚ)
  | withdrawal (amount : ℚ)
  | dispute
  | resolve
  | chargeback
deriving DecidableEq

/-- A transaction: kind, client id (u16 in the source) and transaction id
(u32 in the source).  Ids are only compared for equality, so they are
modelled as Nat. -/
structure Transaction where
  kind : TransactionKind
  client_id : Nat
  transaction_id : Nat
deriving DecidableEq

/-! ## Engine errors (src/domain/error.rs, specialised to the messages the
engine produces as Error::Engine strings) -/

inductive EngineError where
  | accountLocked (client : Nat)
  | duplicateTransactionId (txid : Nat)
  | insufficientFunds (client : Nat)
  | referencedTransactionNotFound
  | clientMismatch
  | notDisputed
deriving DecidableEq

/-! ## Repository state (src/output_repository.rs, StdOutOutput) -/

/-- The state owned by StdOutOutput: the account map and the ledger mapping a
transaction id to the recorded transaction together with its disputed flag. -/
structure EngineState where
  accounts : Nat → Account
  ledger : Nat → Option (Transaction × Bool)

/-- StdOutOutput::new / Default: empty maps; reading an absent client yields
the zeroed account that get_or_create_account would insert. -/
def initState : EngineState :=
  { accounts := fun _ => Account.new, ledger := fun _ => none }

/-- Write one account back into the account map (the effect of mutating the
&mut Account returned by get_or_create_account). -/
def setAccount (s : EngineState) (c : Nat) (a : Account) : EngineState :=
  { s with accounts := fun c2 => if c2 = c then a else s.accounts c2 }

/-- StdOutOutput::report_transaction: insert at a vacant id, error at an
occupied id (no overwrite). -/
def report_transaction (s : EngineState) (txid : Nat) (tx : Transaction) :
    Except EngineError EngineState :=
  match s.ledger txid with
  | some _ => .error (.duplicateTransactionId txid)
  | none =>
      .ok { s with
            ledger := fun t => if t = txid then some (tx, false) else s.ledger t }

/-- StdOutOutput::get_transaction -/
def get_transaction (s : EngineState) (txid : Nat) : Option Transaction :=
  (s.ledger txid).map Prod.fst

/-- StdOutOutput::mark_transaction_disputed -/
def mark_transaction_disputed (s : EngineState) (txid : Nat) : EngineState :=
  { s with
    ledger := fun t =>
      if t = txid then (s.ledger txid).map (fun p => (p.1, true)) else s.ledger t }

/-- StdOutOutput::mark_transaction_resolved -/
def mark_transaction_resolved (s : EngineState) (txid : Nat) : EngineState :=
  { s with
    ledger := fun t =>
      if t = txid then (s.ledger txid).map (fun p => (p.1, false)) else s.ledger t }

/-- StdOutOutput::has_dispute -/
def has_dispute (s : EngineState) (txid : Nat) : Bool :=
  match s.ledger txid with
  | some (_, disputed) => disputed
  | none => false

/-! ## The engine (src/engine.rs)

Each handler returns the state after the call together with an optional
error (none = Ok).  Mutations already performed before an error are kept,
exactly as in the source, where the handlers mutate through &mut self. -/

/-- Engine::deposit -/
def deposit (s : EngineState) (tx : Transaction) (amount : ℚ) :
    EngineState × Option EngineError :=
  match report_transaction s tx.transaction_id tx with
  | .error e => (s, some e)
  | .ok s1 =>
      let account := s1.accounts tx.client_id
      let account := { account with available := account.available + amount }
      (setAccount s1 tx.client_id account.sync_total, none)

/-- Engine::withraw (the source function's name).  Note the ledger insertion
happens before the funds check and is kept on an insufficient-funds error. -/
def withraw (s : EngineState) (tx : Transaction) (amount : ℚ) :
    EngineState × Option EngineError :=
  match report_transaction s tx.transaction_id tx with
  | .error e => (s, some e)
  | .ok s1 =>
      let account := s1.accounts tx.client_id
      if account.available < amount then
        (s1, some (.insufficientFunds tx.client_id))
      else
        let account := { account with available := account.available - amount }
        (setAccount s1 tx.client_id account.sync_total, none)

/-- Engine::dispute -/
def dispute (s : EngineState) (tx : Transaction) :
    EngineState × Option EngineError :=
  match get_transaction s tx.transaction_id with
  | none => (s, some .referencedTransactionNotFound)
  | some disputed_tx =>
      if disputed_tx.client_id ≠ tx.client_id then (s, some .clientMismatch)
      else
        match disputed_tx.kind with
        | .deposit amount | .withdrawal amount =>
            let s1 := mark_transaction_disputed s tx.transaction_id
            let account := s1.accounts tx.client_id
            let account := { account with
                             available := account.available - amount,
                             held := account.held + amount }
            (setAccount s1 tx.client_id account, none)
        | _ => (s, none)

/-- Engine::resolve -/
def resolve (s : EngineState) (tx : Transaction) :
    EngineState × Option EngineError :=
  if has_dispute s tx.transaction_id = false then (s, some .notDisputed)
  else
    match get_transaction s tx.transaction_id with
    | none => (s, some .referencedTransactionNotFound)
    | some resolved_tx =>
        if resolved_tx.client_id ≠ tx.client_id then (s, some .clientMismatch)
        else
          match resolved_tx.kind with
          | .deposit amount | .withdrawal amount =>
              let s1 := mark_transaction_resolved s tx.transaction_id
              let account := s1.accounts tx.client_id
              let account := { account with
                               available := account.available + amount,
                               held := account.held - amount }
              (setAccount s1 tx.client_id account, none)
          | _ => (s, none)

/-- Engine::chargeback.  The source credits available, drains held and locks
the account (it does not clear the disputed flag). -/
def chargeback (s : EngineState) (tx : Transaction) :
    EngineState × Option EngineError :=
  if has_dispute s tx.transaction_id = false then (s, some .notDisputed)
  else
    match get_transaction s tx.transaction_id with
    | none => (s, some .referencedTransactionNotFound)
    | some chargeback_tx =>
        if chargeback_tx.client_id ≠ tx.client_id then (s, some .clientMismatch)
        else
          match chargeback_tx.kind with
          | .deposit amount | .withdrawal amount =>
              let account := s.accounts tx.client_id
              let account := { account with
                               available := account.available + amount,
                               held := account.held - amount,
                               locked := true }
              (setAccount s tx.client_id account, none)
          | _ => (s, none)

/-- Engine::apply_transaction: locked check, then dispatch on the kind. -/
def apply_transaction (s : EngineState) (tx : Transaction) :
    EngineState × Option EngineError :=
  let account := s.accounts tx.client_id
  if account.locked then (s, some (.accountLocked tx.client_id))
  else
    match tx.kind with
    | .deposit amount => deposit s tx amount
    | .withdrawal amount => withraw s tx amount
    | .dispute => dispute s tx
    | .resolve => resolve s tx
    | .chargeback => chargeback s tx

/-- Engine::process restricted to successfully ingested transactions: apply
each in arrival order, keeping the state and discarding (reporting) errors. -/
def applyAll (s : EngineState) (txs : List Transaction) : EngineState :=
  txs.foldl (fun st tx => (apply_transaction st tx).1) s

/-- The per-item error results of a run, in arrival order. -/
def runResults (s : EngineState) (txs : List Transaction) :
    List (Option EngineError) :=
  match txs with
  | [] => []
  | tx :: rest =>
      let r := apply_transaction s tx
      r.2 :: runResults r.1 rest

/-! ## Money (src/domain/money.rs) -/

/-- i64::MIN. -/
def i64Min : Int := -(2 ^ 63)

/-- i64::MAX. -/
def i64Max : Int := 2 ^ 63 - 1

/-- i128::MIN. -/
def i128Min : Int := -(2 ^ 127)

/-- i128::MAX. -/
def i128Max : Int := 2 ^ 127 - 1

/-- Two's-complement wrap into the i64 range: the value an overflowing i64
operation produces in the source's release build (debug builds panic
instead). -/
def wrap64 (x : Int) : Int := (x + 2 ^ 63) % 2 ^ 64 - 2 ^ 63

/-- Two's-complement wrap into the i128 range: the value an overflowing i128
operation produces in the source's release build (debug builds panic
instead). -/
def wrap128 (x : Int) : Int := (x + 2 ^ 127) % 2 ^ 128 - 2 ^ 127

/-- Result of running a piece of Rust code that can panic (here: only the
division by zero that from_scaled_i128 reaches when the wrapped power of ten
is zero, which panics in every build profile). -/
inductive Outcome (α : Type) where
  | panicked : Outcome α
  | ok : α → Outcome α
deriving DecidableEq

namespace Money

/-- Money::TARGET_DECIMALS -/
def TARGET_DECIMALS : Nat := 4

/-- Money::SCALE (ten thousand: four implied decimal places). -/
def SCALE : Int := 10000

/-- Money::from_scaled_i128, with the release build's machine arithmetic.
Rust i128 division and remainder truncate toward zero, so they are Int.tdiv
and Int.tmod; the low-bit test div & 1 != 0 on an i128 is the oddness test
div.tmod 2 ≠ 0; checked_mul detects i128 overflow and yields None.  In the
down-scaling branch 10i128.pow(scale - 4) is unchecked: it wraps in release
(a debug build panics as soon as it overflows, from scale 43 on), and when
the wrapped factor is zero (scale - 4 >= 128) the following division panics
in every profile, which the model reports as the panicked outcome.  The
remaining operations in that branch cannot overflow: the wrapped factor is
even and never -1, so the quotient stays small enough for the final
adjustment by one, and the remainder is never i128::MIN. -/
def from_scaled_i128 (value : Int) (scale : Nat) : Outcome (Option Int) :=
  if scale = TARGET_DECIMALS then
    if value < i64Min ∨ i64Max < value then .ok none
    else .ok (some value)
  else if scale < TARGET_DECIMALS then
    let diff := TARGET_DECIMALS - scale
    let factor : Int := 10 ^ diff
    let widened := value * factor
    if widened < i128Min ∨ i128Max < widened then .ok none
    else if widened < i64Min ∨ i64Max < widened then .ok none
    else .ok (some widened)
  else
    let diff := scale - TARGET_DECIMALS
    let factor : Int := wrap128 (10 ^ diff)
    if factor = 0 then .panicked
    else
      let div := value.tdiv factor
      let rem := value.tmod factor
      if rem = 0 then
        if div < i64Min ∨ i64Max < div then .ok none
        else .ok (some div)
      else
        let half := factor.tdiv 2
        let abs_rem := |rem|
        let adjusted :=
          if half < abs_rem then div + (if value < 0 then -1 else 1)
          else if abs_rem = half then
            if div.tmod 2 ≠ 0 then div + (if value < 0 then -1 else 1) else div
          else div
        if adjusted < i64Min ∨ i64Max < adjusted then .ok none
        else .ok (some adjusted)

end Money

/-! ## Decimal strings (src/domain/money.rs: from_decimal_str and Display) -/

/-- Numeric value of an ASCII digit character. -/
def digitVal (c : Char) : Nat := c.toNat - 48

/-- Big-endian value of a run of ASCII digit characters. -/
def digitsToNat (cs : List Char) : Nat :=
  cs.foldl (fun acc c => acc * 10 + digitVal c) 0

/-- Functional model of the Rust i128 FromStr parser used by
from_decimal_str: an optional single leading sign character, then a
mandatory non-empty run of ASCII digits; a value outside the i128 range is
an error (the checked accumulation overflows exactly when the final value is
out of range, since the magnitude grows monotonically). -/
def parse_i128 (cs : List Char) : Option Int :=
  match cs with
  | [] => none
  | c :: rest =>
      let ds := if c = '+' ∨ c = '-' then rest else cs
      if ds = [] then none
      else if ds.all Char.isDigit then
        let v : Int :=
          if c = '-' then -(digitsToNat ds : Int) else (digitsToNat ds : Int)
        if v < i128Min ∨ i128Max < v then none else some v
      else none

/-- Rust str::split on the dot character, over a character list: empty
pieces are kept. -/
def splitOnDot : List Char → List (List Char)
  | [] => [[]]
  | c :: rest =>
      if c = '.' then [] :: splitOnDot rest
      else
        match splitOnDot rest with
        | [] => [[c]]
        | p :: ps => (c :: p) :: ps

/-- Rust str::trim on a character list. -/
def trimChars (cs : List Char) : List Char :=
  ((cs.dropWhile Char.isWhitespace).reverse.dropWhile Char.isWhitespace).reverse

namespace Money

/-- Money::from_decimal_str on the character list of the input string: trim,
record whether a leading minus sign is present, strip ALL leading minus
characters, split on the dot, parse the integer part, reject a third piece,
parse the fraction, and rescale via from_scaled_i128.  The expression
int_val * 10i128.pow(frac.len()) + frac_val and the final negation are
unchecked i128 arithmetic: release builds wrap (modelled by wrap128; the
iterated wrapping of pow, mul and add equals one wrap of the exact value),
debug builds panic where a wrap occurs. -/
def from_decimal_str_chars (cs0 : List Char) : Outcome (Option Int) :=
  let cs := trimChars cs0
  if cs = [] then .ok none
  else
    let neg := cs.head? = some '-'
    let body := cs.dropWhile (fun c => c = '-')
    match splitOnDot body with
    | [] => .ok none
    | int_part :: rest =>
        if int_part = [] then .ok none
        else
          match parse_i128 int_part with
          | none => .ok none
          | some int_val =>
              match rest with
              | [] =>
                  from_scaled_i128 (if neg then wrap128 (-int_val) else int_val) 0
              | [frac] =>
                  if frac = [] then
                    from_scaled_i128 (if neg then wrap128 (-int_val) else int_val) 0
                  else
                    match parse_i128 frac with
                    | none => .ok none
                    | some frac_val =>
                        let raw := wrap128 (int_val * 10 ^ frac.length + frac_val)
                        from_scaled_i128 (if neg then wrap128 (-raw) else raw)
                          frac.length
              | _ => .ok none

/-- Money::from_decimal_str. -/
def from_decimal_str (s : String) : Outcome (Option Int) :=
  from_decimal_str_chars s.data

end Money

/-- Little-endian decimal digit characters, with enough fuel to terminate
structurally (kernel-evaluable; the fuel never runs out for fuel >= n). -/
def natDecimalCharsAux (fuel n : Nat) : List Char :=
  match fuel with
  | 0 => []
  | fuel + 1 => if n = 0 then [] else Nat.digitChar (n % 10) :: natDecimalCharsAux fuel (n / 10)

/-- Canonical decimal digit characters of a natural number, most significant
first: the rendering of the Rust integer Display used by write!. -/
def natDecimalChars (n : Nat) : List Char :=
  if n = 0 then ['0'] else (natDecimalCharsAux n n).reverse

/-- Zero-pad on the left to width 4 (the 04 width format specifier; it never
truncates). -/
def zeroPad4 (cs : List Char) : List Char :=
  List.replicate (4 - cs.length) '0' ++ cs

/-- Rendering of a possibly negative i64 by the Rust Display for integers:
a minus sign for negative values, then the decimal digits of the magnitude. -/
def intDecimalChars (n : Int) : List Char :=
  (if n < 0 then ['-'] else []) ++ natDecimalChars n.natAbs

/-- The 04 width format specifier on a possibly negative integer: Rust fills
with zeros after the sign up to a total width of 4, and never truncates. -/
def zeroFill4 (n : Int) : List Char :=
  if n < 0 then
    '-' :: (List.replicate (3 - (natDecimalChars n.natAbs).length) '0'
      ++ natDecimalChars n.natAbs)
  else zeroPad4 (natDecimalChars n.natAbs)

namespace Money

/-- The Display implementation for Money: minus sign only when negative,
then abs / SCALE, a dot, and abs % SCALE under the 04 width specifier.
i64::abs is unchecked at i64::MIN: the release build wraps it back to
i64::MIN (modelled by wrap64; a debug build panics there), making the
divisions and the rendered parts negative for that one value. -/
def display (minor : Int) : List Char :=
  let neg := minor < 0
  let a := wrap64 |minor|
  let int_part := a.tdiv 10000
  let frac_part := a.tmod 10000
  (if neg then ['-'] else []) ++ intDecimalChars int_part
    ++ '.' :: zeroFill4 frac_part

/-- The string produced by formatting a Money value. -/
def format (minor : Int) : String := ⟨display minor⟩

end Money

/-! ## Basic lemmas about the repository operations -/

/-- The total-funds invariant of one account. -/
def AccountInv (a : Account) : Prop := a.total = a.available + a.held

/-- The invariant over the whole account map. -/
def StateInv (s : EngineState) : Prop := ∀ c, AccountInv (s.accounts c)

theorem setAccount_same (s : EngineState) (c : Nat) (a : Account) :
    (setAccount s c a).accounts c = a := by
  simp [setAccount]

theorem setAccount_other (s : EngineState) (c c2 : Nat) (a : Account)
    (h : c2 ≠ c) : (setAccount s c a).accounts c2 = s.accounts c2 := by
  simp [setAccount, h]

theorem setAccount_ledger (s : EngineState) (c : Nat) (a : Account) :
    (setAccount s c a).ledger = s.ledger := rfl

theorem setAccount_inv (s : EngineState) (c : Nat) (a : Account)
    (hs : StateInv s) (ha : AccountInv a) : StateInv (setAccount s c a) := by
  intro c2
  by_cases h : c2 = c
  · subst h; rw [setAccount_same]; exact ha
  · rw [setAccount_other s c c2 a h]; exact hs c2

theorem report_transaction_ok_accounts {s s1 : EngineState} {i : Nat}
    {t : Transaction} (h : report_transaction s i t = .ok s1) :
    s1.accounts = s.accounts := by
  unfold report_transaction at h
  split at h
  · exact absurd h (by simp)
  · simp only [Except.ok.injEq] at h
    rw [← h]

theorem report_transaction_ok_ledger {s s1 : EngineState} {i : Nat}
    {t : Transaction} (h : report_transaction s i t = .ok s1) :
    s1.ledger i = some (t, false) := by
  unfold report_transaction at h
  split at h
  · exact absurd h (by simp)
  · simp only [Except.ok.injEq] at h
    rw [← h]; simp

theorem report_transaction_of_some {s : EngineState} {i : Nat}
    {t : Transaction} {e : Transaction × Bool} (h : s.ledger i = some e) :
    report_transaction s i t = .error (.duplicateTransactionId i) := by
  unfold report_transaction
  rw [h]

theorem report_transaction_of_none {s : EngineState} {i : Nat}
    {t : Transaction} (h : s.ledger i = none) :
    report_transaction s i t
      = .ok { s with ledger := fun t2 => if t2 = i then some (t, false) else s.ledger t2 } := by
  unfold report_transaction
  rw [h]

theorem mark_transaction_disputed_accounts (s : EngineState) (i : Nat) :
    (mark_transaction_disputed s i).accounts = s.accounts := rfl

theorem mark_transaction_resolved_accounts (s : EngineState) (i : Nat) :
    (mark_transaction_resolved s i).accounts = s.accounts := rfl

/-! ## Invariant preservation (claim C2 machinery) -/

theorem deposit_inv (s : EngineState) (tx : Transaction) (amount : ℚ)
    (hs : StateInv s) : StateInv (deposit s tx amount).1 := by
  unfold deposit
  split
  · exact hs
  · rename_i s1 h
    have hacc := report_transaction_ok_accounts h
    refine setAccount_inv _ _ _ ?_ ?_
    · intro c; rw [hacc]; exact hs c
    · simp [AccountInv, Account.sync_total]

theorem withraw_inv (s : EngineState) (tx : Transaction) (amount : ℚ)
    (hs : StateInv s) : StateInv (withraw s tx amount).1 := by
  unfold withraw
  split
  · exact hs
  · rename_i s1 h
    have hacc := report_transaction_ok_accounts h
    have hs1 : StateInv s1 := by intro c; rw [hacc]; exact hs c
    dsimp only
    split
    · exact hs1
    · exact setAccount_inv _ _ _ hs1 (by simp [AccountInv, Account.sync_total])

theorem dispute_inv (s : EngineState) (tx : Transaction)
    (hs : StateInv s) : StateInv (dispute s tx).1 := by
  unfold dispute
  split
  · exact hs
  · rename_i dtx _
    split
    · exact hs
    · rename_i hc
      split
      · rename_i amount _
        refine setAccount_inv _ _ _ ?_ ?_
        · intro c; rw [mark_transaction_disputed_accounts]; exact hs c
        · have := hs tx.client_id
          simp only [AccountInv, mark_transaction_disputed_accounts] at *
          rw [this]; ring
      · rename_i amount _
        refine setAccount_inv _ _ _ ?_ ?_
        · intro c; rw [mark_transaction_disputed_accounts]; exact hs c
        · have := hs tx.client_id
          simp only [AccountInv, mark_transaction_disputed_accounts] at *
          rw [this]; ring
      · exact hs

theorem resolve_inv (s : EngineState) (tx : Transaction)
    (hs : StateInv s) : StateInv (resolve s tx).1 := by
  unfold resolve
  split
  · exact hs
  · split
    · exact hs
    · rename_i rtx _
      split
      · exact hs
      · split
        · rename_i amount _
          refine setAccount_inv _ _ _ ?_ ?_
          · intro c; rw [mark_transaction_resolved_accounts]; exact hs c
          · have := hs tx.client_id
            simp only [AccountInv, mark_transaction_resolved_accounts] at *
            rw [this]; ring
        · rename_i amount _
          refine setAccount_inv _ _ _ ?_ ?_
          · intro c; rw [mark_transaction_resolved_accounts]; exact hs c
          · have := hs tx.client_id
            simp only [AccountInv, mark_transaction_resolved_accounts] at *
            rw [this]; ring
        · exact hs

theorem chargeback_inv (s : EngineState) (tx : Transaction)
    (hs : StateInv s) : StateInv (chargeback s tx).1 := by
  unfold chargeback
  split
  · exact hs
  · split
    · exact hs
    · rename_i ctx _
      split
      · exact hs
      · split
        · rename_i amount _
          refine setAccount_inv _ _ _ hs ?_
          have := hs tx.client_id
          simp only [AccountInv] at *
          rw [this]; ring
        · rename_i amount _
          refine setAccount_inv _ _ _ hs ?_
          have := hs tx.client_id
          simp only [AccountInv] at *
          rw [this]; ring
        · exact hs

theorem apply_transaction_inv (s : EngineState) (tx : Transaction)
    (hs : StateInv s) : StateInv (apply_transaction s tx).1 := by
  unfold apply_transaction
  dsimp only
  by_cases h : (s.accounts tx.client_id).locked = true
  · simp only [if_pos h]; exact hs
  · simp only [if_neg h]
    split
    · exact deposit_inv _ _ _ hs
    · exact withraw_inv _ _ _ hs
    · exact dispute_inv _ _ hs
    · exact resolve_inv _ _ hs
    · exact chargeback_inv _ _ hs

theorem applyAll_inv (s : EngineState) (txs : List Transaction)
    (hs : StateInv s) : StateInv (applyAll s txs) := by
  induction txs generalizing s with
  | nil => exact hs
  | cons tx rest ih =>
      simpa [applyAll, List.foldl] using ih _ (apply_transaction_inv s tx hs)

theorem initState_inv : StateInv initState := by
  intro c; simp [initState, StateInv, AccountInv, Account.new]

/-! ## A transaction never touches another client's account -/

theorem deposit_other (s : EngineState) (tx : Transaction) (amount : ℚ)
    (c : Nat) (h : c ≠ tx.client_id) :
    ((deposit s tx amount).1).accounts c = s.accounts c := by
  unfold deposit
  split
  · rfl
  · rename_i s1 hok
    dsimp only
    rw [setAccount_other _ _ _ _ h, report_transaction_ok_accounts hok]

theorem withraw_other (s : EngineState) (tx : Transaction) (amount : ℚ)
    (c : Nat) (h : c ≠ tx.client_id) :
    ((withraw s tx amount).1).accounts c = s.accounts c := by
  unfold withraw
  split
  · rfl
  · rename_i s1 hok
    dsimp only
    split
    · exact congrFun (report_transaction_ok_accounts hok) c
    · rw [setAccount_other _ _ _ _ h, report_transaction_ok_accounts hok]

theorem dispute_other (s : EngineState) (tx : Transaction)
    (c : Nat) (h : c ≠ tx.client_id) :
    ((dispute s tx).1).accounts c = s.accounts c := by
  unfold dispute
  split
  · rfl
  · split
    · rfl
    · split
      · rw [setAccount_other _ _ _ _ h, mark_transaction_disputed_accounts]
      · rw [setAccount_other _ _ _ _ h, mark_transaction_disputed_accounts]
      · rfl

theorem resolve_other (s : EngineState) (tx : Transaction)
    (c : Nat) (h : c ≠ tx.client_id) :
    ((resolve s tx).1).accounts c = s.accounts c := by
  unfold resolve
  split
  · rfl
  · split
    · rfl
    · split
      · rfl
      · split
        · rw [setAccount_other _ _ _ _ h, mark_transaction_resolved_accounts]
        · rw [setAccount_other _ _ _ _ h, mark_transaction_resolved_accounts]
        · rfl

theorem chargeback_other (s : EngineState) (tx : Transaction)
    (c : Nat) (h : c ≠ tx.client_id) :
    ((chargeback s tx).1).accounts c = s.accounts c := by
  unfold chargeback
  split
  · rfl
  · split
    · rfl
    · split
      · rfl
      · split
        · rw [setAccount_other _ _ _ _ h]
        · rw [setAccount_other _ _ _ _ h]
        · rfl

theorem apply_transaction_other (s : EngineState) (tx : Transaction)
    (c : Nat) (h : c ≠ tx.client_id) :
    ((apply_transaction s tx).1).accounts c = s.accounts c := by
  unfold apply_transaction
  dsimp only
  by_cases hl : (s.accounts tx.client_id).locked = true
  · rw [if_pos hl]
  · rw [if_neg hl]
    split
    · exact deposit_other _ _ _ _ h
    · exact withraw_other _ _ _ _ h
    · exact dispute_other _ _ _ h
    · exact resolve_other _ _ _ h
    · exact chargeback_other _ _ _ h

/-- A transaction against a locked account is rejected before any dispatch,
with the whole state unchanged (src/engine.rs, apply_transaction). -/
theorem apply_transaction_locked (s : EngineState) (tx : Transaction)
    (h : (s.accounts tx.client_id).locked = true) :
    apply_transaction s tx = (s, some (.accountLocked tx.client_id)) := by
  unfold apply_transaction
  dsimp only
  rw [if_pos h]

theorem apply_transaction_frozen (s : EngineState) (tx : Transaction)
    (c : Nat) (h : (s.accounts c).locked = true) :
    ((apply_transaction s tx).1).accounts c = s.accounts c := by
  by_cases hc : c = tx.client_id
  · subst hc
    rw [apply_transaction_locked s tx h]
  · exact apply_transaction_other s tx c hc

theorem applyAll_frozen (s : EngineState) (txs : List Transaction)
    (c : Nat) (h : (s.accounts c).locked = true) :
    (applyAll s txs).accounts c = s.accounts c := by
  induction txs generalizing s with
  | nil => rfl
  | cons tx rest ih =>
      have h1 := apply_transaction_frozen s tx c h
      have h2 : (((apply_transaction s tx).1).accounts c).locked = true := by
        rw [h1]; exact h
      calc (applyAll s (tx :: rest)).accounts c
          = (applyAll (apply_transaction s tx).1 rest).accounts c := rfl
        _ = ((apply_transaction s tx).1).accounts c := ih _ h2
        _ = s.accounts c := h1

/-! ## Claim theorems: C2 and C7 -/

/-- C2: for every account reachable by processing any sequence of
transactions from the initial zeroed state, after each transaction is
applied (whether it succeeds or fails) the account satisfies
total == available + held. -/
theorem C2_total_eq_available_add_held (txs : List Transaction) (c : Nat) :
    ((applyAll initState txs).accounts c).total
      = ((applyAll initState txs).accounts c).available
        + ((applyAll initState txs).accounts c).held := by
  have := applyAll_inv initState txs initState_inv c
  exact this

/-- C7: once an account is locked, every transaction for that client is
rejected with the account-locked error and leaves the entire state (balances
and ledger) unchanged, and the account is never mutated again by any
subsequent sequence of transactions. -/
theorem C7_locked_account_frozen (s : EngineState) (c : Nat)
    (h : (s.accounts c).locked = true) :
    (∀ tx : Transaction, tx.client_id = c →
        apply_transaction s tx = (s, some (.accountLocked c))) ∧
    (∀ txs : List Transaction, (applyAll s txs).accounts c = s.accounts c) := by
  constructor
  · intro tx hc
    have := apply_transaction_locked s tx (by rw [hc]; exact h)
    rw [hc] at this
    exact this
  · intro txs
    exact applyAll_frozen s txs c h

/-- Witness for C7: the account locked by the worked chargeback scenario
rejects a further deposit with the account-locked error. -/
theorem C7_locked_account_frozen_witness :
    ((applyAll initState
        [⟨.deposit 60, 3, 30⟩, ⟨.dispute, 3, 30⟩, ⟨.chargeback, 3, 30⟩]).accounts 3).locked
      = true ∧
    apply_transaction
        (applyAll initState
          [⟨.deposit 60, 3, 30⟩, ⟨.dispute, 3, 30⟩, ⟨.chargeback, 3, 30⟩])
        ⟨.deposit 10, 3, 31⟩
      = (applyAll initState
          [⟨.deposit 60, 3, 30⟩, ⟨.dispute, 3, 30⟩, ⟨.chargeback, 3, 30⟩],
         some (.accountLocked 3)) := by
  have h : ((applyAll initState
      [⟨.deposit 60, 3, 30⟩, ⟨.dispute, 3, 30⟩, ⟨.chargeback, 3, 30⟩]).accounts 3).locked
      = true := by
    simp [applyAll, apply_transaction, deposit, dispute, chargeback, initState,
      setAccount, report_transaction, get_transaction, mark_transaction_disputed,
      has_dispute, Account.new, Account.sync_total]
  exact ⟨h, (C7_locked_account_frozen _ 3 h).1 ⟨.deposit 10, 3, 31⟩ rfl⟩

/-! ## Claim C1: what Chargeback does to the balances -/

/-- Counterexample to C1: in the worked scenario Deposit(60, tx 30, client 3),
Dispute(tx 30), Chargeback(tx 30), the chargeback succeeds but CREDITS the
amount back to available (0 becomes 60) and leaves total unchanged at 60,
whereas the claim requires available to stay 0 and total to drop by 60. -/
theorem C1_chargeback_cex :
    let s2 := applyAll initState [⟨.deposit 60, 3, 30⟩, ⟨.dispute, 3, 30⟩]
    let r := apply_transaction s2 ⟨.chargeback, 3, 30⟩
    (s2.accounts 3).available = 0 ∧ (s2.accounts 3).held = 60 ∧
    (s2.accounts 3).total = 60 ∧
    r.2 = none ∧
    ((r.1).accounts 3).available = 60 ∧
    ¬ ((r.1).accounts 3).available = (s2.accounts 3).available ∧
    ((r.1).accounts 3).held = 0 ∧
    ((r.1).accounts 3).locked = true ∧
    ((r.1).accounts 3).total = 60 ∧
    ¬ ((r.1).accounts 3).total = (s2.accounts 3).total - 60 := by
  refine ⟨?_, ?_, ?_, ?_, ?_, ?_, ?_, ?_, ?_, ?_⟩ <;>
    simp [applyAll, apply_transaction, deposit, dispute, chargeback, initState,
      setAccount, report_transaction, get_transaction, mark_transaction_disputed,
      has_dispute, Account.new, Account.sync_total]

/-- C1 amended: for every chargeback whose preconditions hold (referenced
transaction recorded and currently disputed, same client, account not
locked), the engine subtracts the referenced amount from held, ADDS it back
to available, and sets locked; the stored total is unchanged (total does not
decrease by the amount). -/
theorem C1_chargeback_effect (s : EngineState) (tx rtx : Transaction) (amt : ℚ)
    (hk : tx.kind = .chargeback)
    (hl : s.ledger tx.transaction_id = some (rtx, true))
    (hc : rtx.client_id = tx.client_id)
    (hm : rtx.kind = .deposit amt ∨ rtx.kind = .withdrawal amt)
    (hnl : (s.accounts tx.client_id).locked = false) :
    apply_transaction s tx =
      (setAccount s tx.client_id
        { s.accounts tx.client_id with
          available := (s.accounts tx.client_id).available + amt,
          held := (s.accounts tx.client_id).held - amt,
          locked := true }, none) := by
  have hcb : apply_transaction s tx = chargeback s tx := by
    unfold apply_transaction
    dsimp only
    rw [if_neg (by simp [hnl]), hk]
  rw [hcb]
  unfold chargeback
  have hg : get_transaction s tx.transaction_id = some rtx := by
    simp [get_transaction, hl]
  rw [if_neg (by simp [has_dispute, hl]), hg]
  dsimp only
  rw [if_neg (by simp [hc])]
  rcases hm with hm | hm <;> rw [hm]

/-- Witness for the amended C1, at the worked scenario. -/
theorem C1_chargeback_effect_witness :
    apply_transaction
        (applyAll initState [⟨.deposit 60, 3, 30⟩, ⟨.dispute, 3, 30⟩])
        ⟨.chargeback, 3, 30⟩
      = (setAccount (applyAll initState [⟨.deposit 60, 3, 30⟩, ⟨.dispute, 3, 30⟩]) 3
          { (applyAll initState [⟨.deposit 60, 3, 30⟩, ⟨.dispute, 3, 30⟩]).accounts 3 with
            available :=
              ((applyAll initState
                [⟨.deposit 60, 3, 30⟩, ⟨.dispute, 3, 30⟩]).accounts 3).available + 60,
            held :=
              ((applyAll initState
                [⟨.deposit 60, 3, 30⟩, ⟨.dispute, 3, 30⟩]).accounts 3).held - 60,
            locked := true }, none) := by
  refine C1_chargeback_effect _ _ ⟨.deposit 60, 3, 30⟩ 60 rfl ?_ rfl (Or.inl rfl) ?_ <;>
    simp [applyAll, apply_transaction, deposit, dispute, initState, setAccount,
      report_transaction, get_transaction, mark_transaction_disputed,
      has_dispute, Account.new, Account.sync_total]

/-! ## Claim C3: what a failed Withdrawal leaves behind -/

/-- Counterexample to C3: a withdrawal rejected for insufficient funds leaves
the account untouched but DOES insert its transaction id into the ledger
(the insertion happens before the funds check and is not rolled back). -/
theorem C3_withraw_failure_cex :
    (apply_transaction initState ⟨.withdrawal 50, 1, 1⟩).2
      = some (.insufficientFunds 1) ∧
    ((apply_transaction initState ⟨.withdrawal 50, 1, 1⟩).1).accounts 1
      = Account.new ∧
    ((apply_transaction initState ⟨.withdrawal 50, 1, 1⟩).1).ledger 1
      = some (⟨.withdrawal 50, 1, 1⟩, false) := by
  refine ⟨?_, ?_, ?_⟩ <;>
    simp [apply_transaction, withraw, initState, setAccount, report_transaction,
      Account.new, Account.sync_total]

/-- C3 amended: a Withdrawal that fails the duplicate-id check changes
nothing at all; a Withdrawal that fails the funds check leaves every account
unchanged but does add its (undisputed) entry to the ledger. -/
theorem C3_withraw_failure (s : EngineState) (tx : Transaction) (amt : ℚ)
    (hk : tx.kind = .withdrawal amt)
    (hnl : (s.accounts tx.client_id).locked = false) :
    (∀ e : Transaction × Bool, s.ledger tx.transaction_id = some e →
        apply_transaction s tx
          = (s, some (.duplicateTransactionId tx.transaction_id))) ∧
    (s.ledger tx.transaction_id = none →
      (s.accounts tx.client_id).available < amt →
        apply_transaction s tx
          = ({ s with ledger := fun t =>
                 if t = tx.transaction_id then some (tx, false) else s.ledger t },
             some (.insufficientFunds tx.client_id))) := by
  have hw : apply_transaction s tx = withraw s tx amt := by
    unfold apply_transaction
    dsimp only
    rw [if_neg (by simp [hnl]), hk]
  constructor
  · intro e he
    rw [hw]
    unfold withraw
    rw [report_transaction_of_some he]
  · intro he hlt
    rw [hw]
    unfold withraw
    rw [report_transaction_of_none he]
    dsimp only
    rw [if_pos hlt]

/-- Witness for the amended C3: the insufficient-funds branch at the initial
state. -/
theorem C3_withraw_failure_witness :
    apply_transaction initState ⟨.withdrawal 50, 1, 1⟩
      = ({ initState with ledger := fun t =>
             if t = 1 then some (⟨.withdrawal 50, 1, 1⟩, false) else initState.ledger t },
         some (.insufficientFunds 1)) := by
  exact (C3_withraw_failure initState ⟨.withdrawal 50, 1, 1⟩ 50 rfl rfl).2 rfl
    (by norm_num [initState, Account.new])

/-! ## Claim C6: Resolve / Chargeback require the disputed state -/

/-- C6: a Resolve or Chargeback whose referenced entry is not currently
disputed (including an entry already resolved once, and an unknown id) is an
error that changes no state; a valid Resolve clears the disputed flag and
moves the amount from held back to available. -/
theorem C6_resolve_requires_dispute (s : EngineState) (tx : Transaction)
    (hnl : (s.accounts tx.client_id).locked = false) :
    ((tx.kind = .resolve ∨ tx.kind = .chargeback) →
      has_dispute s tx.transaction_id = false →
      apply_transaction s tx = (s, some .notDisputed)) ∧
    (∀ (rtx : Transaction) (amt : ℚ),
      tx.kind = .resolve →
      s.ledger tx.transaction_id = some (rtx, true) →
      rtx.client_id = tx.client_id →
      (rtx.kind = .deposit amt ∨ rtx.kind = .withdrawal amt) →
      apply_transaction s tx =
        (setAccount (mark_transaction_resolved s tx.transaction_id) tx.client_id
          { s.accounts tx.client_id with
            available := (s.accounts tx.client_id).available + amt,
            held := (s.accounts tx.client_id).held - amt }, none) ∧
      ((apply_transaction s tx).1).ledger tx.transaction_id = some (rtx, false)) := by
  constructor
  · rintro (hk | hk) hnd
    · have hr : apply_transaction s tx = resolve s tx := by
        unfold apply_transaction
        dsimp only
        rw [if_neg (by simp [hnl]), hk]
      rw [hr]
      unfold resolve
      rw [if_pos hnd]
    · have hr : apply_transaction s tx = chargeback s tx := by
        unfold apply_transaction
        dsimp only
        rw [if_neg (by simp [hnl]), hk]
      rw [hr]
      unfold chargeback
      rw [if_pos hnd]
  · intro rtx amt hk hl hc hm
    have hr : apply_transaction s tx = resolve s tx := by
      unfold apply_transaction
      dsimp only
      rw [if_neg (by simp [hnl]), hk]
    have heff : resolve s tx =
        (setAccount (mark_transaction_resolved s tx.transaction_id) tx.client_id
          { s.accounts tx.client_id with
            available := (s.accounts tx.client_id).available + amt,
            held := (s.accounts tx.client_id).held - amt }, none) := by
      unfold resolve
      have hg : get_transaction s tx.transaction_id = some rtx := by
        simp [get_transaction, hl]
      rw [if_neg (by simp [has_dispute, hl]), hg]
      dsimp only
      rw [if_neg (by simp [hc])]
      rcases hm with hm | hm <;> rw [hm] <;> rfl
    refine ⟨by rw [hr, heff], ?_⟩
    rw [hr, heff]
    simp [setAccount, mark_transaction_resolved, hl]

/-- Witness for C6: the spec's dispute lifecycle.  Deposit(100) for client 1
tx 1, then Dispute(tx 1): a Resolve succeeds and moves the funds back;
after that Resolve a second Resolve fails with the not-disputed error. -/
theorem C6_resolve_requires_dispute_witness :
    (apply_transaction
        (applyAll initState [⟨.deposit 100, 1, 1⟩, ⟨.dispute, 1, 1⟩])
        ⟨.resolve, 1, 1⟩
      = (setAccount
          (mark_transaction_resolved
            (applyAll initState [⟨.deposit 100, 1, 1⟩, ⟨.dispute, 1, 1⟩]) 1) 1
          { (applyAll initState [⟨.deposit 100, 1, 1⟩, ⟨.dispute, 1, 1⟩]).accounts 1 with
            available :=
              ((applyAll initState
                [⟨.deposit 100, 1, 1⟩, ⟨.dispute, 1, 1⟩]).accounts 1).available + 100,
            held :=
              ((applyAll initState
                [⟨.deposit 100, 1, 1⟩, ⟨.dispute, 1, 1⟩]).accounts 1).held - 100 },
         none)) ∧
    apply_transaction
        (applyAll initState [⟨.deposit 100, 1, 1⟩, ⟨.dispute, 1, 1⟩, ⟨.resolve, 1, 1⟩])
        ⟨.resolve, 1, 1⟩
      = (applyAll initState [⟨.deposit 100, 1, 1⟩, ⟨.dispute, 1, 1⟩, ⟨.resolve, 1, 1⟩],
         some .notDisputed) := by
  constructor
  · refine ((C6_resolve_requires_dispute _ ⟨.resolve, 1, 1⟩ ?_).2
      ⟨.deposit 100, 1, 1⟩ 100 rfl ?_ rfl (Or.inl rfl)).1 <;>
      simp [applyAll, apply_transaction, deposit, dispute, initState, setAccount,
        report_transaction, get_transaction, mark_transaction_disputed,
        has_dispute, Account.new, Account.sync_total]
  · refine (C6_resolve_requires_dispute _ ⟨.resolve, 1, 1⟩ ?_).1 (Or.inl rfl) ?_ <;>
      simp [applyAll, apply_transaction, deposit, dispute, resolve, initState,
        setAccount, report_transaction, get_transaction, mark_transaction_disputed,
        mark_transaction_resolved, has_dispute, Account.new, Account.sync_total]

/-! ## Claim C10: Dispute has no not-already-disputed and no funds check -/

/-- C10: a Dispute of any recorded transaction with a matching client on an
unlocked account always succeeds, whatever the current disputed flag and
however small available is, and each application performs
available -= amt; held += amt again; concretely, disputing one deposit twice
drives available negative while every transaction reports success. -/
theorem C10_dispute_unconditional :
    (∀ (s : EngineState) (tx rtx : Transaction) (amt : ℚ) (b : Bool),
      tx.kind = .dispute →
      s.ledger tx.transaction_id = some (rtx, b) →
      rtx.client_id = tx.client_id →
      (rtx.kind = .deposit amt ∨ rtx.kind = .withdrawal amt) →
      (s.accounts tx.client_id).locked = false →
      apply_transaction s tx =
        (setAccount (mark_transaction_disputed s tx.transaction_id) tx.client_id
          { s.accounts tx.client_id with
            available := (s.accounts tx.client_id).available - amt,
            held := (s.accounts tx.client_id).held + amt }, none)) ∧
    runResults initState [⟨.deposit 100, 1, 1⟩, ⟨.dispute, 1, 1⟩, ⟨.dispute, 1, 1⟩]
      = [none, none, none] ∧
    (applyAll initState [⟨.deposit 100, 1, 1⟩, ⟨.dispute, 1, 1⟩, ⟨.dispute, 1, 1⟩]).accounts 1
      = ⟨-100, 200, 100, false⟩ := by
  refine ⟨?_, ?_, ?_⟩
  · intro s tx rtx amt b hk hl hc hm hnl
    have hd : apply_transaction s tx = dispute s tx := by
      unfold apply_transaction
      dsimp only
      rw [if_neg (by simp [hnl]), hk]
    rw [hd]
    unfold dispute
    have hg : get_transaction s tx.transaction_id = some rtx := by
      simp [get_transaction, hl]
    rw [hg]
    dsimp only
    rw [if_neg (by simp [hc])]
    rcases hm with hm | hm <;> rw [hm] <;> rfl
  · simp [runResults, apply_transaction, deposit, dispute, initState, setAccount,
      report_transaction, get_transaction, mark_transaction_disputed,
      has_dispute, Account.new, Account.sync_total]
  · simp [applyAll, apply_transaction, deposit, dispute, initState, setAccount,
      report_transaction, get_transaction, mark_transaction_disputed,
      has_dispute, Account.new, Account.sync_total]
    norm_num

/-- Witness for C10: the universally quantified part applied to the second
Dispute of the doubly-disputed deposit (already disputed, insufficient
available). -/
theorem C10_dispute_unconditional_witness :
    apply_transaction
        (applyAll initState [⟨.deposit 100, 1, 1⟩, ⟨.dispute, 1, 1⟩])
        ⟨.dispute, 1, 1⟩
      = (setAccount
          (mark_transaction_disputed
            (applyAll initState [⟨.deposit 100, 1, 1⟩, ⟨.dispute, 1, 1⟩]) 1) 1
          { (applyAll initState [⟨.deposit 100, 1, 1⟩, ⟨.dispute, 1, 1⟩]).accounts 1 with
            available :=
              ((applyAll initState
                [⟨.deposit 100, 1, 1⟩, ⟨.dispute, 1, 1⟩]).accounts 1).available - 100,
            held :=
              ((applyAll initState
                [⟨.deposit 100, 1, 1⟩, ⟨.dispute, 1, 1⟩]).accounts 1).held + 100 },
         none) := by
  refine C10_dispute_unconditional.1 _ _ ⟨.deposit 100, 1, 1⟩ 100 true rfl ?_ rfl
    (Or.inl rfl) ?_ <;>
    simp [applyAll, apply_transaction, deposit, dispute, initState, setAccount,
      report_transaction, get_transaction, mark_transaction_disputed,
      has_dispute, Account.new, Account.sync_total]

/-! ## Claim C8: duplicate transaction ids -/

/-- Counterexample to C8: a Withdrawal that fails its funds check followed by
a Deposit with the same transaction id yields NO successful account mutation
at all (the withdrawal fails with insufficient funds yet occupies the id, so
the deposit fails with the duplicate-id error). -/
theorem C8_duplicate_pair_cex :
    runResults initState [⟨.withdrawal 50, 1, 1⟩, ⟨.deposit 10, 1, 1⟩]
      = [some (.insufficientFunds 1), some (.duplicateTransactionId 1)] ∧
    (applyAll initState [⟨.withdrawal 50, 1, 1⟩, ⟨.deposit 10, 1, 1⟩]).accounts 1
      = Account.new := by
  constructor <;>
    simp [runResults, applyAll, apply_transaction, deposit, withraw, initState,
      setAccount, report_transaction, Account.new, Account.sync_total]

/-- If a Deposit/Withdrawal is applied successfully, its (undisputed) entry
is in the resulting ledger under its transaction id. -/
theorem apply_success_ledger_entry (s s1 : EngineState) (tx : Transaction) (a : ℚ)
    (hk : tx.kind = .deposit a ∨ tx.kind = .withdrawal a)
    (h : apply_transaction s tx = (s1, none)) :
    s1.ledger tx.transaction_id = some (tx, false) := by
  unfold apply_transaction at h
  dsimp only at h
  by_cases hlk : (s.accounts tx.client_id).locked = true
  · rw [if_pos hlk] at h
    simp at h
  · rw [if_neg hlk] at h
    rcases hk with hk | hk <;> rw [hk] at h
    · unfold deposit at h
      rcases hrep : report_transaction s tx.transaction_id tx with e | s2 <;>
        rw [hrep] at h
      · simp at h
      · dsimp only at h
        simp only [Prod.mk.injEq] at h
        rw [← h.1, setAccount_ledger]
        exact report_transaction_ok_ledger hrep
    · unfold withraw at h
      rcases hrep : report_transaction s tx.transaction_id tx with e | s2 <;>
        rw [hrep] at h
      · simp at h
      · dsimp only at h
        split at h
        · simp at h
        · simp only [Prod.mk.injEq] at h
          rw [← h.1, setAccount_ledger]
          exact report_transaction_ok_ledger hrep

/-- C8 amended: for a pair of Deposit/Withdrawal transactions with the same
transaction id whose FIRST application succeeds, the first leaves its entry
in the ledger and the second is rejected with the duplicate-id error without
changing any state (the first entry is not overwritten). -/
theorem C8_duplicate_id_second_rejected (s s1 : EngineState)
    (tx1 tx2 : Transaction) (a1 a2 : ℚ)
    (hk1 : tx1.kind = .deposit a1 ∨ tx1.kind = .withdrawal a1)
    (hk2 : tx2.kind = .deposit a2 ∨ tx2.kind = .withdrawal a2)
    (hid : tx2.transaction_id = tx1.transaction_id)
    (h1 : apply_transaction s tx1 = (s1, none))
    (hnl : (s1.accounts tx2.client_id).locked = false) :
    s1.ledger tx1.transaction_id = some (tx1, false) ∧
    apply_transaction s1 tx2 = (s1, some (.duplicateTransactionId tx1.transaction_id)) := by
  have hled := apply_success_ledger_entry s s1 tx1 a1 hk1 h1
  refine ⟨hled, ?_⟩
  have hrep : report_transaction s1 tx2.transaction_id tx2
      = .error (.duplicateTransactionId tx1.transaction_id) := by
    rw [hid]
    exact report_transaction_of_some hled
  unfold apply_transaction
  dsimp only
  rw [if_neg (by simp [hnl])]
  rcases hk2 with hk2 | hk2 <;> rw [hk2]
  · unfold deposit
    rw [hrep]
  · unfold withraw
    rw [hrep]

/-- Witness for the amended C8: two deposits with transaction id 1. -/
theorem C8_duplicate_id_second_rejected_witness :
    ((apply_transaction initState ⟨.deposit 100, 1, 1⟩).1).ledger 1
      = some (⟨.deposit 100, 1, 1⟩, false) ∧
    apply_transaction (apply_transaction initState ⟨.deposit 100, 1, 1⟩).1
        ⟨.deposit 50, 1, 1⟩
      = ((apply_transaction initState ⟨.deposit 100, 1, 1⟩).1,
         some (.duplicateTransactionId 1)) := by
  refine C8_duplicate_id_second_rejected initState _ ⟨.deposit 100, 1, 1⟩
    ⟨.deposit 50, 1, 1⟩ 100 50 (Or.inl rfl) (Or.inl rfl) rfl ?_ ?_
  · rw [Prod.ext_iff]
    refine ⟨rfl, ?_⟩
    simp [apply_transaction, deposit, initState, setAccount, report_transaction,
      Account.new, Account.sync_total]
  · simp [apply_transaction, deposit, initState, setAccount, report_transaction,
      Account.new, Account.sync_total]


theorem Int_neg_tmod (a b : Int) : (-a).tmod b = -(a.tmod b) := by
  rw [Int.tmod_def, Int.tmod_def, Int.neg_tdiv]
  ring

theorem wrap128_eq_self (x : Int) (h1 : i128Min ≤ x) (h2 : x ≤ i128Max) :
    wrap128 x = x := by
  unfold wrap128
  unfold i128Min at h1
  unfold i128Max at h2
  omega

theorem wrap64_eq_self (x : Int) (h1 : i64Min ≤ x) (h2 : x ≤ i64Max) :
    wrap64 x = x := by
  unfold wrap64
  unfold i64Min at h1
  unfold i64Max at h2
  omega

/-- The down-scaling branch of from_scaled_i128 picks a nearest multiple,
with exact halves resolved toward the even quotient (round half to even) —
for source scales up to 42, where the power of ten fits in an i128 and the
wrapping arithmetic agrees with exact arithmetic. -/
theorem from_scaled_i128_rhe (value : Int) (scale : Nat)
    (hs : Money.TARGET_DECIMALS < scale) (hs42 : scale ≤ 42) (m : Int)
    (h : Money.from_scaled_i128 value scale = .ok (some m)) :
    2 * |value - m * 10 ^ (scale - Money.TARGET_DECIMALS)|
        ≤ 10 ^ (scale - Money.TARGET_DECIMALS) ∧
    (2 * |value - m * 10 ^ (scale - Money.TARGET_DECIMALS)|
        = 10 ^ (scale - Money.TARGET_DECIMALS) → Even m) := by
  unfold Money.from_scaled_i128 at h
  rw [if_neg (by omega), if_neg (by omega)] at h
  dsimp only at h
  set d := scale - Money.TARGET_DECIMALS with hd
  have hd38 : d ≤ 38 := by
    rw [hd]
    have ht4 : Money.TARGET_DECIMALS = 4 := rfl
    omega
  have hpow : wrap128 ((10 : Int) ^ d) = 10 ^ d := by
    apply wrap128_eq_self
    · have h0 : (0 : Int) ≤ 10 ^ d := by positivity
      have : i128Min ≤ 0 := by norm_num [i128Min]
      linarith
    · have hm : (10 : Int) ^ d ≤ 10 ^ 38 :=
        pow_le_pow_right₀ (by norm_num) hd38
      have : (10 : Int) ^ 38 ≤ i128Max := by norm_num [i128Max]
      linarith
  rw [hpow] at h
  have hfne : ¬ ((10 : Int) ^ d) = 0 := by positivity
  rw [if_neg hfne] at h
  set f : Int := 10 ^ d with hf
  set q := value.tdiv f with hq
  set r := value.tmod f with hr
  have hdpos : d ≠ 0 := by
    rw [hd]; unfold Money.TARGET_DECIMALS at hs ⊢; omega
  have hfpos : (0 : Int) < f := by rw [hf]; positivity
  have h2f : (2 : Int) ∣ f := by
    rw [hf]
    exact dvd_trans (by norm_num) (dvd_pow_self 10 hdpos)
  obtain ⟨k, hk⟩ := h2f
  have hhalf : f.tdiv 2 = k := by
    rw [hk]; exact Int.mul_tdiv_cancel_left k (by norm_num)
  have hvf : f * q + r = value := Int.tdiv_add_tmod value f
  have hrub : r < f := Int.tmod_lt_of_pos value hfpos
  have hrlb : -f < r := by
    rcases le_or_lt 0 value with hv | hv
    · have := Int.tmod_nonneg f hv
      omega
    · have h1 : (-value).tmod f < f := Int.tmod_lt_of_pos _ hfpos
      rw [Int_neg_tmod] at h1
      omega
  have hrnn : 0 ≤ value → 0 ≤ r := fun hv => Int.tmod_nonneg f hv
  have hrnp : value < 0 → r ≤ 0 := fun hv => by
    have := Int.tmod_nonneg f (by omega : (0 : Int) ≤ -value)
    rw [Int_neg_tmod] at this
    omega
  rw [hhalf] at h
  by_cases hr0 : r = 0
  · rw [if_pos hr0] at h
    split at h
    · exact absurd h (by simp)
    · simp only [Outcome.ok.injEq, Option.some.injEq] at h
      subst h
      have he : value - q * f = r := by rw [← hvf]; ring
      rw [he, hr0]
      simp only [abs_zero, mul_zero]
      exact ⟨by omega, fun ht => by omega⟩
  · rw [if_neg hr0] at h
    by_cases hneg : value < 0
    · simp only [if_pos hneg] at h
      have hrneg : r < 0 := by have := hrnp hneg; omega
      have habs : |r| = -r := abs_of_nonpos (by omega)
      rw [habs] at h
      rcases lt_trichotomy k (-r) with hcmp | hcmp | hcmp
      · rw [if_pos hcmp] at h
        split at h
        · exact absurd h (by simp)
        · simp only [Outcome.ok.injEq, Option.some.injEq] at h
          subst h
          have he : value - (q + -1) * f = r + f := by rw [← hvf]; ring
          rw [he, abs_of_nonneg (by omega)]
          exact ⟨by omega, fun ht => by omega⟩
      · have hnlt : ¬ k < -r := by omega
        rw [if_neg hnlt, if_pos hcmp.symm] at h
        by_cases hodd : q.tmod 2 ≠ 0
        · rw [if_pos hodd] at h
          have hq2 : ¬ (2 : Int) ∣ q := by
            rw [Int.dvd_iff_tmod_eq_zero]; exact hodd
          split at h
          · exact absurd h (by simp)
          · simp only [Outcome.ok.injEq, Option.some.injEq] at h
            subst h
            have he : value - (q + -1) * f = r + f := by rw [← hvf]; ring
            rw [he, abs_of_nonneg (by omega)]
            refine ⟨by omega, fun ht => ?_⟩
            rw [Int.even_iff]
            omega
        · rw [if_neg hodd] at h
          have hq2 : (2 : Int) ∣ q := by
            rw [Int.dvd_iff_tmod_eq_zero]
            by_contra hc
            exact hodd hc
          split at h
          · exact absurd h (by simp)
          · simp only [Outcome.ok.injEq, Option.some.injEq] at h
            subst h
            have he : value - q * f = r := by rw [← hvf]; ring
            rw [he, habs]
            refine ⟨by omega, fun ht => ?_⟩
            rw [Int.even_iff]
            omega
      · have hnlt : ¬ k < -r := by omega
        have hne : ¬ -r = k := by omega
        rw [if_neg hnlt, if_neg hne] at h
        split at h
        · exact absurd h (by simp)
        · simp only [Outcome.ok.injEq, Option.some.injEq] at h
          subst h
          have he : value - q * f = r := by rw [← hvf]; ring
          rw [he, habs]
          exact ⟨by omega, fun ht => by omega⟩
    · simp only [if_neg hneg] at h
      have hrpos : 0 < r := by have := hrnn (by omega); omega
      have habs : |r| = r := abs_of_nonneg (by omega)
      rw [habs] at h
      rcases lt_trichotomy k r with hcmp | hcmp | hcmp
      · rw [if_pos hcmp] at h
        split at h
        · exact absurd h (by simp)
        · simp only [Outcome.ok.injEq, Option.some.injEq] at h
          subst h
          have he : value - (q + 1) * f = r - f := by rw [← hvf]; ring
          rw [he, abs_of_nonpos (by omega), neg_sub]
          exact ⟨by omega, fun ht => by omega⟩
      · have hnlt : ¬ k < r := by omega
        rw [if_neg hnlt, if_pos hcmp.symm] at h
        by_cases hodd : q.tmod 2 ≠ 0
        · rw [if_pos hodd] at h
          have hq2 : ¬ (2 : Int) ∣ q := by
            rw [Int.dvd_iff_tmod_eq_zero]; exact hodd
          split at h
          · exact absurd h (by simp)
          · simp only [Outcome.ok.injEq, Option.some.injEq] at h
            subst h
            have he : value - (q + 1) * f = r - f := by rw [← hvf]; ring
            rw [he, abs_of_nonpos (by omega), neg_sub]
            refine ⟨by omega, fun ht => ?_⟩
            rw [Int.even_iff]
            omega
        · rw [if_neg hodd] at h
          have hq2 : (2 : Int) ∣ q := by
            rw [Int.dvd_iff_tmod_eq_zero]
            by_contra hc
            exact hodd hc
          split at h
          · exact absurd h (by simp)
          · simp only [Outcome.ok.injEq, Option.some.injEq] at h
            subst h
            have he : value - q * f = r := by rw [← hvf]; ring
            rw [he, habs]
            refine ⟨by omega, fun ht => ?_⟩
            rw [Int.even_iff]
            omega
      · have hnlt : ¬ k < r := by omega
        have hne : ¬ r = k := by omega
        rw [if_neg hnlt, if_neg hne] at h
        split at h
        · exact absurd h (by simp)
        · simp only [Outcome.ok.injEq, Option.some.injEq] at h
          subst h
          have he : value - q * f = r := by rw [← hvf]; ring
          rw [he, habs]
          exact ⟨by omega, fun ht => by omega⟩

/-- Counterexample to C5: the source computes the scaling factor with an
unchecked i128 power, so at source scale 43 the factor 10 to the 39 wraps to
a negative value in the release build (a debug build panics there instead)
and from_scaled_i128 1 43 returns Some(1), which is not a nearest multiple
of 10 to the 39 — the claimed round-half-to-even law fails. -/
theorem C5_from_scaled_round_half_even_cex :
    Money.from_scaled_i128 1 43 = .ok (some 1) ∧
    ¬ (2 * |(1 : Int) - 1 * 10 ^ (43 - Money.TARGET_DECIMALS)|
        ≤ 10 ^ (43 - Money.TARGET_DECIMALS)) := by
  exact ⟨by decide, by decide⟩

/-- C5 amended: for every integer value and source scale strictly between 4
and 43 (so the power of ten fits in an i128 and every build profile agrees),
from_scaled_i128 rescales to 4 decimals by round half to even: any produced
result m is a nearest multiple, and an exact half forces m even; in
particular 1.23445 -> 1.2344, 1.23455 -> 1.2346, and symmetrically for the
negatives.  From scale 43 on the unchecked power wraps (release) or panics
(debug). -/
theorem C5_from_scaled_round_half_even :
    (∀ (value : Int) (scale : Nat), Money.TARGET_DECIMALS < scale → scale ≤ 42 →
      ∀ m : Int, Money.from_scaled_i128 value scale = .ok (some m) →
        2 * |value - m * 10 ^ (scale - Money.TARGET_DECIMALS)|
            ≤ 10 ^ (scale - Money.TARGET_DECIMALS) ∧
        (2 * |value - m * 10 ^ (scale - Money.TARGET_DECIMALS)|
            = 10 ^ (scale - Money.TARGET_DECIMALS) → Even m)) ∧
    Money.from_scaled_i128 123445 5 = .ok (some 12344) ∧
    Money.from_scaled_i128 123455 5 = .ok (some 12346) ∧
    Money.from_scaled_i128 (-123445) 5 = .ok (some (-12344)) ∧
    Money.from_scaled_i128 (-123455) 5 = .ok (some (-12346)) := by
  refine ⟨from_scaled_i128_rhe, ?_, ?_, ?_, ?_⟩ <;> decide

/-- Witness for C5: the universal part applied at 1.23455 with scale 5. -/
theorem C5_from_scaled_round_half_even_witness :
    2 * |(123455 : Int) - 12346 * 10 ^ (5 - Money.TARGET_DECIMALS)|
        ≤ 10 ^ (5 - Money.TARGET_DECIMALS) ∧
    (2 * |(123455 : Int) - 12346 * 10 ^ (5 - Money.TARGET_DECIMALS)|
        = 10 ^ (5 - Money.TARGET_DECIMALS) → Even (12346 : Int)) := by
  exact C5_from_scaled_round_half_even.1 123455 5 (by decide) (by decide) 12346
    (by decide)

/-! ## Digit characters and their values -/

theorem digitChar_isDigit {d : Nat} (h : d < 10) :
    (Nat.digitChar d).isDigit = true := by
  interval_cases d <;> decide

theorem digitVal_digitChar {d : Nat} (h : d < 10) :
    digitVal (Nat.digitChar d) = d := by
  interval_cases d <;> decide

theorem isDigit_ne_dot {c : Char} (h : c.isDigit = true) : c ≠ '.' := by
  intro he
  subst he
  exact absurd h (by decide)

theorem isDigit_ne_minus {c : Char} (h : c.isDigit = true) : c ≠ '-' := by
  intro he
  subst he
  exact absurd h (by decide)

theorem isDigit_ne_plus {c : Char} (h : c.isDigit = true) : c ≠ '+' := by
  intro he
  subst he
  exact absurd h (by decide)

theorem isDigit_not_whitespace {c : Char} (h : c.isDigit = true) :
    c.isWhitespace = false := by
  by_contra hw
  rw [Bool.not_eq_false] at hw
  unfold Char.isWhitespace at hw
  simp only [Bool.or_eq_true, decide_eq_true_iff] at hw
  rcases hw with ((h1 | h1) | h1) | h1 <;> subst h1 <;> exact absurd h (by decide)

/-! ## digitsToNat -/

theorem digitsToNat_append (xs ys : List Char) :
    digitsToNat (xs ++ ys)
      = ys.foldl (fun acc c => acc * 10 + digitVal c) (digitsToNat xs) := by
  simp [digitsToNat, List.foldl_append]

theorem digitsToNat_append_singleton (xs : List Char) (c : Char) :
    digitsToNat (xs ++ [c]) = digitsToNat xs * 10 + digitVal c := by
  simp [digitsToNat_append, List.foldl]

theorem digitsToNat_reverse_map (ds : List Nat) (h : ∀ d ∈ ds, d < 10) :
    digitsToNat ((ds.map Nat.digitChar).reverse) = Nat.ofDigits 10 ds := by
  induction ds with
  | nil => simp [digitsToNat, Nat.ofDigits_nil]
  | cons d ds ih =>
      have hd : d < 10 := h d (by simp)
      have hds : ∀ x ∈ ds, x < 10 := fun x hx => h x (by simp [hx])
      rw [List.map_cons, List.reverse_cons, digitsToNat_append_singleton, ih hds,
        Nat.ofDigits_cons, digitVal_digitChar hd]
      ring

theorem digitsToNat_replicate_zero (k : Nat) (cs : List Char) :
    digitsToNat (List.replicate k '0' ++ cs) = digitsToNat cs := by
  induction k with
  | zero => simp
  | succ k ih =>
      rw [List.replicate_succ, List.cons_append]
      simpa [digitsToNat] using ih

/-! ## natDecimalChars -/

theorem natDecimalCharsAux_eq_digits (fuel n : Nat) (h : n ≤ fuel) :
    natDecimalCharsAux fuel n = (Nat.digits 10 n).map Nat.digitChar := by
  induction fuel generalizing n with
  | zero =>
      have hn : n = 0 := by omega
      subst hn
      simp [natDecimalCharsAux]
  | succ fuel ih =>
      by_cases hn : n = 0
      · subst hn
        simp [natDecimalCharsAux]
      · have hlt : n / 10 < n := Nat.div_lt_self (by omega) (by norm_num)
        rw [Nat.digits_def' (by norm_num : 1 < 10) (by omega : 0 < n)]
        unfold natDecimalCharsAux
        rw [if_neg hn, ih (n / 10) (by omega), List.map_cons]

theorem natDecimalChars_eq (n : Nat) :
    natDecimalChars n
      = if n = 0 then ['0'] else ((Nat.digits 10 n).map Nat.digitChar).reverse := by
  unfold natDecimalChars
  by_cases hn : n = 0
  · simp [hn]
  · rw [if_neg hn, if_neg hn, natDecimalCharsAux_eq_digits n n le_rfl]

theorem natDecimalChars_value (n : Nat) :
    digitsToNat (natDecimalChars n) = n := by
  rw [natDecimalChars_eq]
  by_cases hn : n = 0
  · simp [hn]; decide
  · rw [if_neg hn, digitsToNat_reverse_map _
      (fun d hd => Nat.digits_lt_base (by norm_num) hd), Nat.ofDigits_digits]

theorem natDecimalChars_all_digits (n : Nat) :
    ∀ c ∈ natDecimalChars n, c.isDigit = true := by
  rw [natDecimalChars_eq]
  by_cases hn : n = 0
  · simp [hn]
  · rw [if_neg hn]
    intro c hc
    rw [List.mem_reverse, List.mem_map] at hc
    obtain ⟨d, hd, rfl⟩ := hc
    exact digitChar_isDigit (Nat.digits_lt_base (by norm_num) hd)

theorem natDecimalChars_ne_nil (n : Nat) : natDecimalChars n ≠ [] := by
  rw [natDecimalChars_eq]
  by_cases hn : n = 0
  · simp [hn]
  · rw [if_neg hn]
    simp [Nat.digits_ne_nil_iff_ne_zero, hn]

theorem natDecimalChars_length_le (n : Nat) (h : n < 10000) :
    (natDecimalChars n).length ≤ 4 := by
  rw [natDecimalChars_eq]
  by_cases hn : n = 0
  · simp [hn]
  · rw [if_neg hn, List.length_reverse, List.length_map]
    by_contra hlen
    push_neg at hlen
    have h1 := Nat.base_pow_length_digits_le 10 n (by norm_num) hn
    have h2 : (10 : Nat) ^ 5 ≤ 10 ^ (Nat.digits 10 n).length :=
      Nat.pow_le_pow_right (by norm_num) hlen
    have h3 : (10 : Nat) ^ 5 = 100000 := by norm_num
    omega

/-! ## splitOnDot -/

theorem splitOnDot_no_dot (cs : List Char) (h : '.' ∉ cs) :
    splitOnDot cs = [cs] := by
  induction cs with
  | nil => rfl
  | cons c t ih =>
      have hc : ¬ c = '.' := fun he => h (he ▸ List.mem_cons_self c t)
      have ht : '.' ∉ t := fun hm => h (List.mem_cons_of_mem c hm)
      unfold splitOnDot
      rw [if_neg hc, ih ht]

theorem splitOnDot_append (xs ys : List Char) (h : '.' ∉ xs) :
    splitOnDot (xs ++ '.' :: ys) = xs :: splitOnDot ys := by
  induction xs with
  | nil => simp [splitOnDot]
  | cons c t ih =>
      have hc : ¬ c = '.' := fun he => h (he ▸ List.mem_cons_self c t)
      have ht : '.' ∉ t := fun hm => h (List.mem_cons_of_mem c hm)
      rw [List.cons_append]
      conv_lhs => rw [splitOnDot]
      rw [if_neg hc, ih ht]

theorem dropWhile_eq_self_of_all {α} (p : α → Bool) (cs : List α)
    (h : ∀ c ∈ cs, p c = false) : cs.dropWhile p = cs := by
  cases cs with
  | nil => rfl
  | cons c t =>
      rw [List.dropWhile_cons, h c (by simp)]
      simp

theorem trimChars_eq_self (cs : List Char)
    (h : ∀ c ∈ cs, c.isWhitespace = false) : trimChars cs = cs := by
  unfold trimChars
  rw [dropWhile_eq_self_of_all _ _ h,
    dropWhile_eq_self_of_all _ _ (fun c hc => h c (List.mem_reverse.mp hc)),
    List.reverse_reverse]

/-! ## parse_i128 -/

theorem parse_i128_digits (cs : List Char) (hne : cs ≠ [])
    (hd : ∀ c ∈ cs, c.isDigit = true)
    (hb : (digitsToNat cs : Int) ≤ i128Max) :
    parse_i128 cs = some ((digitsToNat cs : Int)) := by
  cases cs with
  | nil => exact absurd rfl hne
  | cons c t =>
      have hcd := hd c (by simp)
      have hcond : ¬ (c = '+' ∨ c = '-') := by
        push_neg
        exact ⟨isDigit_ne_plus hcd, isDigit_ne_minus hcd⟩
      have hall : (c :: t).all Char.isDigit = true := by
        rw [List.all_eq_true]
        exact hd
      unfold parse_i128
      simp only [if_neg hcond]
      rw [if_neg (by simp : ¬ (c :: t) = []), if_pos hall]
      simp only [if_neg (isDigit_ne_minus hcd)]
      have hmin : i128Min < 0 := by norm_num [i128Min]
      have hnn : (0 : Int) ≤ (digitsToNat (c :: t) : Int) := Int.natCast_nonneg _
      rw [if_neg (by omega)]

theorem from_decimal_str_wf_frac (ds1 ds2 : List Char) (neg : Prop) [Decidable neg]
    (hne1 : ds1 ≠ []) (hne2 : ds2 ≠ [])
    (hd1 : ∀ c ∈ ds1, c.isDigit = true) (hd2 : ∀ c ∈ ds2, c.isDigit = true)
    (hb1 : (digitsToNat ds1 : Int) ≤ i128Max)
    (hb2 : (digitsToNat ds2 : Int) ≤ i128Max) :
    Money.from_decimal_str_chars ((if neg then ['-'] else []) ++ ds1 ++ '.' :: ds2)
      = Money.from_scaled_i128
          (if neg
           then wrap128 (-(wrap128 ((digitsToNat ds1 : Int) * 10 ^ ds2.length
               + (digitsToNat ds2 : Int))))
           else wrap128 ((digitsToNat ds1 : Int) * 10 ^ ds2.length
               + (digitsToNat ds2 : Int)))
          ds2.length := by
  cases ds1 with
  | nil => exact absurd rfl hne1
  | cons d t =>
      have hd0 : d.isDigit = true := hd1 d (by simp)
      have hnd1 : '.' ∉ d :: t := fun hdot => isDigit_ne_dot (hd1 _ hdot) rfl
      have hnd2 : '.' ∉ ds2 := fun hdot => isDigit_ne_dot (hd2 _ hdot) rfl
      have hdm : ¬ (d = '-') := isDigit_ne_minus hd0
      have hsplit : splitOnDot ((d :: t) ++ '.' :: ds2)
          = (d :: t) :: splitOnDot ds2 := splitOnDot_append _ _ hnd1
      have hbody : ((d :: t) ++ '.' :: ds2).dropWhile (fun c => c = '-')
          = (d :: t) ++ '.' :: ds2 := by
        rw [List.cons_append, List.dropWhile_cons]
        simp [hdm]
      by_cases hneg : neg
      · rw [if_pos hneg, if_pos hneg]
        have hnws : ∀ c ∈ '-' :: ((d :: t) ++ '.' :: ds2), c.isWhitespace = false := by
          intro c hc
          rcases List.mem_cons.mp hc with rfl | hc
          · decide
          rcases List.mem_append.mp hc with hc | hc
          · exact isDigit_not_whitespace (hd1 c hc)
          rcases List.mem_cons.mp hc with rfl | hc
          · decide
          · exact isDigit_not_whitespace (hd2 c hc)
        show Money.from_decimal_str_chars ('-' :: ((d :: t) ++ '.' :: ds2)) = _
        unfold Money.from_decimal_str_chars
        rw [trimChars_eq_self _ hnws]
        rw [if_neg (by simp : ¬ ('-' :: ((d :: t) ++ '.' :: ds2)) = [])]
        dsimp only
        have hbody2 : ('-' :: ((d :: t) ++ '.' :: ds2)).dropWhile (fun c => c = '-')
            = (d :: t) ++ '.' :: ds2 := by
          rw [List.dropWhile_cons, if_pos (by decide)]
          exact hbody
        rw [hbody2, hsplit, splitOnDot_no_dot _ hnd2]
        dsimp only
        rw [if_neg (by simp : ¬ (d :: t) = []),
          parse_i128_digits _ (by simp) hd1 hb1]
        dsimp only
        rw [if_neg hne2, parse_i128_digits _ hne2 hd2 hb2]
        dsimp only
        rw [if_pos (show ('-' :: ((d :: t) ++ '.' :: ds2)).head? = some '-' from rfl)]
      · rw [if_neg hneg, if_neg hneg]
        have hnws : ∀ c ∈ (d :: t) ++ '.' :: ds2, c.isWhitespace = false := by
          intro c hc
          rcases List.mem_append.mp hc with hc | hc
          · exact isDigit_not_whitespace (hd1 c hc)
          rcases List.mem_cons.mp hc with rfl | hc
          · decide
          · exact isDigit_not_whitespace (hd2 c hc)
        show Money.from_decimal_str_chars ((d :: t) ++ '.' :: ds2) = _
        unfold Money.from_decimal_str_chars
        rw [trimChars_eq_self _ hnws]
        rw [if_neg (by simp : ¬ ((d :: t) ++ '.' :: ds2) = [])]
        dsimp only
        rw [hbody, hsplit, splitOnDot_no_dot _ hnd2]
        dsimp only
        rw [if_neg (by simp : ¬ (d :: t) = []),
          parse_i128_digits _ (by simp) hd1 hb1]
        dsimp only
        rw [if_neg hne2, parse_i128_digits _ hne2 hd2 hb2]
        dsimp only
        rw [if_neg (by simp [hdm] : ¬ (((d :: t) ++ '.' :: ds2).head? = some '-'))]

/-! ## zeroPad4 -/

theorem zeroPad4_length (cs : List Char) (h : cs.length ≤ 4) :
    (zeroPad4 cs).length = 4 := by
  simp [zeroPad4]
  omega

theorem zeroPad4_ne_nil (cs : List Char) (h : cs ≠ []) : zeroPad4 cs ≠ [] := by
  simp [zeroPad4, h]

theorem zeroPad4_all_digits (cs : List Char)
    (h : ∀ c ∈ cs, c.isDigit = true) :
    ∀ c ∈ zeroPad4 cs, c.isDigit = true := by
  intro c hc
  rcases List.mem_append.mp hc with hc | hc
  · rw [List.eq_of_mem_replicate hc]
    decide
  · exact h c hc

theorem zeroPad4_value (cs : List Char) :
    digitsToNat (zeroPad4 cs) = digitsToNat cs :=
  digitsToNat_replicate_zero _ _

/-! ## Claim C4: parse inverts format -/

theorem intDecimalChars_ofNat (k : Nat) :
    intDecimalChars (k : Int) = natDecimalChars k := by
  unfold intDecimalChars
  rw [if_neg (not_lt.mpr (Int.natCast_nonneg k))]
  simp

theorem zeroFill4_ofNat (k : Nat) :
    zeroFill4 (k : Int) = zeroPad4 (natDecimalChars k) := by
  unfold zeroFill4
  rw [if_neg (not_lt.mpr (Int.natCast_nonneg k))]
  simp

/-- For every i64 value except i64::MIN, the wrapping absolute value is the
true absolute value and Money::display renders the non-negative magnitude. -/
theorem display_eq_of_ne_min (x : Int) (h1 : i64Min < x) (h2 : x ≤ i64Max) :
    Money.display x
      = (if x < 0 then ['-'] else []) ++ natDecimalChars (x.natAbs / 10000)
          ++ '.' :: zeroPad4 (natDecimalChars (x.natAbs % 10000)) := by
  unfold Money.display
  dsimp only
  have habs : wrap64 |x| = |x| := by
    apply wrap64_eq_self
    · have h0 : (0 : Int) ≤ |x| := abs_nonneg x
      have hm : i64Min ≤ 0 := by norm_num [i64Min]
      linarith
    · rw [abs_le]
      constructor
      · simp only [i64Min] at h1
        simp only [i64Max]
        omega
      · exact h2
  rw [habs, Int.abs_eq_natAbs]
  have hdiv : ((x.natAbs : Int)).tdiv 10000 = ((x.natAbs / 10000 : Nat) : Int) := rfl
  have hmod : ((x.natAbs : Int)).tmod 10000 = ((x.natAbs % 10000 : Nat) : Int) := rfl
  rw [hdiv, hmod, intDecimalChars_ofNat, zeroFill4_ofNat]

/-- Counterexample to C4: at x = i64::MIN (inside the claim's scope of every
scaled i64) the source's abs() wraps in release — the Display renders the
malformed text with a double minus sign and a signed fraction, which
re-parses to a different value (a debug build panics in abs() instead), so
parse(format(x)) = x fails there. -/
theorem C4_parse_format_roundtrip_cex :
    Money.format i64Min = ⟨['-', '-', '9', '2', '2', '3', '3', '7', '2', '0',
      '3', '6', '8', '5', '4', '7', '7', '.', '-', '5', '8', '0', '8']⟩ ∧
    Money.from_decimal_str (Money.format i64Min)
      = .ok (some (-9223372036854769419)) ∧
    ¬ ((-9223372036854769419 : Int) = i64Min) := by
  exact ⟨by decide, by decide, by decide⟩

/-- C4 amended: for every value representable in the canonical 4-decimal
fixed point type except i64::MIN, parsing the text produced by formatting it
returns the value back (at i64::MIN the unchecked abs() wraps in release and
panics in debug). -/
theorem C4_parse_format_roundtrip (x : Int) (h1 : i64Min < x) (h2 : x ≤ i64Max) :
    Money.from_decimal_str (Money.format x) = .ok (some x) := by
  unfold Money.format Money.from_decimal_str
  show Money.from_decimal_str_chars (Money.display x) = .ok (some x)
  rw [display_eq_of_ne_min x h1 h2]
  set a := x.natAbs with ha
  set ip := a / 10000 with hip
  set fp := a % 10000 with hfp
  have hfplt : fp < 10000 := Nat.mod_lt _ (by norm_num)
  have hds1 := natDecimalChars_all_digits ip
  have hne1 := natDecimalChars_ne_nil ip
  have hds2 : ∀ c ∈ zeroPad4 (natDecimalChars fp), c.isDigit = true :=
    zeroPad4_all_digits _ (natDecimalChars_all_digits fp)
  have hne2 : zeroPad4 (natDecimalChars fp) ≠ [] :=
    zeroPad4_ne_nil _ (natDecimalChars_ne_nil fp)
  have hlen2 : (zeroPad4 (natDecimalChars fp)).length = 4 :=
    zeroPad4_length _ (natDecimalChars_length_le fp hfplt)
  have hv1 : digitsToNat (natDecimalChars ip) = ip := natDecimalChars_value ip
  have hv2 : digitsToNat (zeroPad4 (natDecimalChars fp)) = fp := by
    rw [zeroPad4_value, natDecimalChars_value]
  have h1x : -(2 ^ 63) < x := by
    have := h1
    simp only [i64Min] at this
    exact this
  have h2x : x ≤ 2 ^ 63 - 1 := by
    have := h2
    simp only [i64Max] at this
    exact this
  have ha63 : a ≤ 2 ^ 63 := by
    rw [ha]
    omega
  have hip_le : ip ≤ a := Nat.div_le_self _ _
  have hb1 : (digitsToNat (natDecimalChars ip) : Int) ≤ i128Max := by
    rw [hv1]
    unfold i128Max
    have h63 : (2 : Nat) ^ 63 ≤ 2 ^ 127 := Nat.pow_le_pow_right (by norm_num) (by norm_num)
    omega
  have hb2 : (digitsToNat (zeroPad4 (natDecimalChars fp)) : Int) ≤ i128Max := by
    rw [hv2]
    unfold i128Max
    have h127 : (10000 : Nat) ≤ 2 ^ 127 := by norm_num
    omega
  rw [from_decimal_str_wf_frac (natDecimalChars ip)
    (zeroPad4 (natDecimalChars fp)) (x < 0) hne1 hne2 hds1 hds2 hb1 hb2]
  rw [hv1, hv2, hlen2]
  have hval : (ip : Int) * 10 ^ 4 + (fp : Int) = (a : Int) := by
    have hdm := Nat.div_add_mod a 10000
    have : (10 : Int) ^ 4 = 10000 := by norm_num
    rw [this]
    omega
  have hraw : wrap128 ((ip : Int) * 10 ^ 4 + (fp : Int)) = (a : Int) := by
    rw [hval]
    apply wrap128_eq_self
    · have hm : i128Min ≤ 0 := by norm_num [i128Min]
      have h0 : (0 : Int) ≤ (a : Int) := Int.natCast_nonneg a
      linarith
    · have hmx : (2 : Int) ^ 63 ≤ i128Max := by norm_num [i128Max]
      omega
  rw [hraw]
  have hneg : wrap128 (-(a : Int)) = -(a : Int) := by
    apply wrap128_eq_self
    · have hmn : i128Min ≤ -(2 : Int) ^ 63 := by norm_num [i128Min]
      omega
    · have h0 : (0 : Int) ≤ (a : Int) := Int.natCast_nonneg a
      have hmx : (0 : Int) ≤ i128Max := by norm_num [i128Max]
      linarith
  rw [hneg]
  have harg : (if x < 0 then -((a : Int)) else ((a : Int))) = x := by
    rw [ha]
    by_cases hx : x < 0
    · rw [if_pos hx]
      omega
    · rw [if_neg hx]
      omega
  rw [harg]
  unfold Money.from_scaled_i128 Money.TARGET_DECIMALS
  rw [if_pos rfl]
  rw [if_neg (by simp only [i64Min, i64Max]; omega)]

/-- Witness for the amended C4 at a concrete negative amount. -/
theorem C4_parse_format_roundtrip_witness :
    Money.from_decimal_str (Money.format (-98765)) = .ok (some (-98765)) :=
  C4_parse_format_roundtrip (-98765) (by norm_num [i64Min]) (by norm_num [i64Max])

/-! ## Rejection behaviour of from_decimal_str -/

end Payments
